import Mathlib

/-!
Verification of the inbound-peer eviction subsystem of BitCoinLens.

The repository ships only the declarations of the two eviction algorithms
(`src/node/eviction.h`); their bodies are not part of the source tree, so the
algorithms themselves are modelled from the specification (spec.md §§3-4, 7),
as noted on each definition.  `ConnectionTypeAsString` is embedded from
`src/node/connection_types.cpp`, which is part of the source tree.

Durations and timestamps (`std::chrono::seconds` / `microseconds`) are
embedded as `Int` counts; `NodeId` (`int64_t`) as `Int`; `uint64_t` as `Nat`.
No arithmetic is performed on these values (only comparisons), so machine
overflow is not in play.
-/

/-- Transport network classification.  Modelled from the spec's data model
(`network` field: `enum {IPv4, IPv6, Onion, I2P, CJDNS}`); the defining
header (`netaddress.h`) is not in the source tree. -/
inductive Network
  | IPv4
  | IPv6
  | Onion
  | I2P
  | CJDNS
deriving DecidableEq, Repr

/-- Connection-type enumeration, embedded from the source
(`node/connection_types.h`, mirrored in `part_005`): INBOUND,
OUTBOUND_FULL_RELAY, MANUAL, FEELER, BLOCK_RELAY, ADDR_FETCH. -/
inductive ConnectionType
  | INBOUND
  | OUTBOUND_FULL_RELAY
  | MANUAL
  | FEELER
  | BLOCK_RELAY
  | ADDR_FETCH
deriving DecidableEq, Repr, Fintype

/-- `typedef int64_t NodeId` from `node/eviction.h`. -/
abbrev NodeId := Int

/-- Eviction-candidate snapshot record, embedded field for field from
`struct NodeEvictionCandidate` in `src/node/eviction.h` (lines 22-37). -/
structure NodeEvictionCandidate where
  id : Int
  m_connected : Int
  m_min_ping_time : Int
  m_last_block_time : Int
  m_last_tx_time : Int
  fRelevantServices : Bool
  m_relay_txs : Bool
  fBloomFilter : Bool
  nKeyedNetGroup : Nat
  prefer_evict : Bool
  m_is_local : Bool
  m_network : Network
  m_noban : Bool
  m_conn_type : ConnectionType
deriving DecidableEq, Repr

/-- Boolean total order on `Int` used for sorting value lists. -/
def intLe (a b : Int) : Bool := decide (a ≤ b)

/-- Insert an element into a list so that a list ascending under `le`
stays ascending (structurally recursive, so concrete instances evaluate
inside the kernel). -/
def insertLe {α : Type} (le : α → α → Bool) (a : α) :
    List α → List α
  | [] => [a]
  | b :: t => if le a b then a :: b :: t else b :: insertLe le a t

/-- Insertion sort by the boolean relation `le`. -/
def sortLe {α : Type} (le : α → α → Bool) : List α → List α
  | [] => []
  | a :: t => insertLe le a (sortLe le t)

/-- Median value of a list of integers: the element at index
`(length - 1) / 2` of the ascending sort (the split point of spec §4.2
steps 3-4; `0` as the irrelevant default for the empty list). -/
def medianOf (xs : List Int) : Int :=
  (sortLe intLe xs).getD ((xs.length - 1) / 2) 0

/-- Maximum value of a list of integers (last element of the ascending
sort; `0` as the irrelevant default for the empty list). -/
def maxOf (xs : List Int) : Int :=
  (sortLe intLe xs).getD (xs.length - 1) 0

/-- Modelled from the spec (§4.1 step 1): membership in the
privacy-preserving group `{Onion, I2P, CJDNS} ∪ {is_local == true}`. -/
def isPrivacy (c : NodeEvictionCandidate) : Bool :=
  c.m_is_local || c.m_network == .Onion || c.m_network == .I2P ||
    c.m_network == .CJDNS

/-- Modelled from the spec (§4.1 steps 2-3): the protection order —
descending `connected_duration`, ties broken by smaller `id`
("sorted by longest uptime", "Ties in `connected_duration` break by
smaller `id`").  `protLe c d` means `c` is protected no later than `d`. -/
def protLe (c d : NodeEvictionCandidate) : Bool :=
  decide (d.m_connected < c.m_connected ∨
    (c.m_connected = d.m_connected ∧ c.id ≤ d.id))

/-- Modelled from the spec (§4.1 step 2): the privacy reservation is one
quarter of the total input size. -/
def privacyQuota (n : Nat) : Nat := n / 4

/-- Modelled from the spec (§4.1 step 3 and §7): the cumulative protection
target is one half of the total input size, floored to zero protected
candidates when fewer than 4 candidates are supplied ("Degenerate
protection (fewer than 4 candidates, making ratio math collapse to zero):
resolved by flooring ratio computations at zero protected candidates"). -/
def protectTargetSize (n : Nat) : Nat := if n < 4 then 0 else n / 2

/-- Modelled from the spec (§4.1 step 2): from the privacy-preserving
group, protect the longest-connected quarter of the total input size;
a smaller group is protected whole (the quota is a ceiling). -/
def quotaProtected (l : List NodeEvictionCandidate) :
    List NodeEvictionCandidate :=
  (sortLe protLe (l.filter isPrivacy)).take (privacyQuota l.length)

/-- Modelled from the spec (§4.1 step 3): from the full remaining pool
(privacy-preserving candidates not already protected, plus all others),
protect additional longest-connected candidates until the cumulative
protected count reaches the target. -/
def generalProtected (l : List NodeEvictionCandidate) :
    List NodeEvictionCandidate :=
  (sortLe protLe (l.filter (fun c => decide (c ∉ quotaProtected l)))).take
    (protectTargetSize l.length - (quotaProtected l).length)

/-- Modelled from the spec (§4.1): the full protected set — privacy
reservation followed by the general longevity protection. -/
def protectedOf (l : List NodeEvictionCandidate) :
    List NodeEvictionCandidate :=
  quotaProtected l ++ generalProtected l

/-- Modelled from the spec (§4.1 step 4): Protection-by-Ratio, declared as
`ProtectEvictionCandidatesByRatio` in `src/node/eviction.h` (line 95).  The
C++ function partitions its argument in place, leaving the residual; the
model returns the residual set ("everything not protected"). -/
def ProtectEvictionCandidatesByRatio (l : List NodeEvictionCandidate) :
    List NodeEvictionCandidate :=
  l.filter (fun c => decide (c ∉ protectedOf l))

/-- Modelled from the spec (§4.2): a narrowing stage of the shape "if any
candidate satisfies `p`, restrict the working set to exactly those". -/
def narrowIf (p : NodeEvictionCandidate → Bool)
    (l : List NodeEvictionCandidate) : List NodeEvictionCandidate :=
  if l.any p then l.filter p else l

/-- Modelled from the spec (§4.2 step 1): the misbehavior override —
if any candidate has `prefer_evict`, keep exactly those. -/
def stageMisbehavior (l : List NodeEvictionCandidate) :
    List NodeEvictionCandidate :=
  narrowIf (fun c => c.prefer_evict) l

/-- Modelled from the spec (§4.2 step 2): the service-relevance filter —
if at least one candidate lacks relevant services, narrow to the subset
lacking them. -/
def stageServices (l : List NodeEvictionCandidate) :
    List NodeEvictionCandidate :=
  narrowIf (fun c => !c.fRelevantServices) l

/-- Modelled from the spec (§4.2 step 3): a recent-traffic filter — if the
working set contains candidates whose key is strictly less recent than the
maximum observed, narrow to the least-recent half, using the median of the
key values as the split point. -/
def narrowLeastRecent (key : NodeEvictionCandidate → Int)
    (l : List NodeEvictionCandidate) : List NodeEvictionCandidate :=
  if l.any (fun c => decide (key c < maxOf (l.map key))) then
    l.filter (fun c => decide (key c ≤ medianOf (l.map key)))
  else l

/-- Modelled from the spec (§4.2 step 3): block-contribution filter. -/
def stageBlock (l : List NodeEvictionCandidate) :
    List NodeEvictionCandidate :=
  narrowLeastRecent (fun c => c.m_last_block_time) l

/-- Modelled from the spec (§4.2 step 3): transaction-contribution
filter. -/
def stageTx (l : List NodeEvictionCandidate) :
    List NodeEvictionCandidate :=
  narrowLeastRecent (fun c => c.m_last_tx_time) l

/-- Modelled from the spec (§4.2 step 4): latency tie-break — narrow the
working set to the worse (larger) half by `min_ping`, using the median as
the split point. -/
def stagePing (l : List NodeEvictionCandidate) :
    List NodeEvictionCandidate :=
  l.filter (fun c => decide (medianOf (l.map (fun d => d.m_min_ping_time)) ≤
    c.m_min_ping_time))

/-- Modelled from the spec (§4.2 step 5): the final selection order —
smallest `connected_duration` first, ties broken by smaller `id`. -/
def finalLe (c d : NodeEvictionCandidate) : Bool :=
  decide (c.m_connected < d.m_connected ∨
    (c.m_connected = d.m_connected ∧ c.id ≤ d.id))

/-- Modelled from the spec (§4.2): the working set surviving all narrowing
stages, in order: misbehavior override, service relevance, recent blocks,
recent transactions, latency. -/
def workingSet (l : List NodeEvictionCandidate) :
    List NodeEvictionCandidate :=
  stagePing (stageTx (stageBlock (stageServices (stageMisbehavior l))))

/-- Modelled from the spec (§4.2): Eviction Selection, declared as
`SelectNodeToEvict` in `src/node/eviction.h` (line 53).  Runs the
narrowing stages on the residual collection and returns the id of the
first survivor in the final selection order (`None` on empty input). -/
def SelectNodeToEvict (l : List NodeEvictionCandidate) : Option NodeId :=
  (sortLe finalLe (workingSet l)).head?.map (fun c => c.id)

/-- Modelled from the spec (§7): the input-contract error taxonomy for a
precondition violation — duplicate `id`, or a non-inbound
`connection_kind` present. -/
inductive EvictionInputError
  | duplicateId
  | nonInboundCandidate
deriving DecidableEq, Repr

/-- Modelled from the spec (§7): does the collection violate the unique-id
precondition? -/
def hasDuplicateIds (l : List NodeEvictionCandidate) : Bool :=
  decide (¬ (l.map (fun c => c.id)).Nodup)

/-- Modelled from the spec (§7): does the collection contain a candidate
of non-inbound connection kind? -/
def hasNonInbound (l : List NodeEvictionCandidate) : Bool :=
  l.any (fun c => c.m_conn_type != .INBOUND)

/-- Modelled from the spec (§7): input validation, performed before any
partitioning begins; a violation is reported to the caller as an
input-contract error. -/
def validateEvictionInput (l : List NodeEvictionCandidate) :
    Except EvictionInputError Unit :=
  if hasDuplicateIds l then .error .duplicateId
  else if hasNonInbound l then .error .nonInboundCandidate
  else .ok ()

/-- Modelled from the spec (§7): Protection-by-Ratio behind the input
validation boundary — validation happens before any partitioning. -/
def protectByRatioChecked (l : List NodeEvictionCandidate) :
    Except EvictionInputError (List NodeEvictionCandidate) :=
  match validateEvictionInput l with
  | .error e => .error e
  | .ok _ => .ok (ProtectEvictionCandidatesByRatio l)

/-- Modelled from the spec (§7): Eviction Selection behind the input
validation boundary — validation happens before any narrowing. -/
def selectNodeToEvictChecked (l : List NodeEvictionCandidate) :
    Except EvictionInputError (Option NodeId) :=
  match validateEvictionInput l with
  | .error e => .error e
  | .ok _ => .ok (SelectNodeToEvict l)

/-- Embedded from `src/node/connection_types.cpp` (lines 15-34): the
string for each `ConnectionType` enumerator, one `return` per `case`; the
`switch` covers every enumerator, so the `assert(false)` fall-through is
unreachable and the embedding is a total function. -/
def ConnectionTypeAsString : ConnectionType → String
  | .INBOUND => "inbound"
  | .MANUAL => "manual"
  | .FEELER => "feeler"
  | .OUTBOUND_FULL_RELAY => "outbound-full-relay"
  | .BLOCK_RELAY => "block-relay-only"
  | .ADDR_FETCH => "addr-fetch"

/-- Ids as a list, for stating the unique-id precondition of spec §3. -/
abbrev idsOf (l : List NodeEvictionCandidate) : List Int :=
  l.map (fun c => c.id)

/-- A candidate with every field at a neutral default; scenario inputs
override the fields a scenario fixes. -/
def baseCand : NodeEvictionCandidate where
  id := 0
  m_connected := 0
  m_min_ping_time := 100
  m_last_block_time := 0
  m_last_tx_time := 0
  fRelevantServices := true
  m_relay_txs := true
  fBloomFilter := false
  nKeyedNetGroup := 0
  prefer_evict := false
  m_is_local := false
  m_network := .IPv4
  m_noban := false
  m_conn_type := .INBOUND

/-- Spec §8 concrete scenario: 8 inbound clearnet candidates, none
`prefer_evict`, uniform `min_ping` and activity; candidate 7 connected for
1 second, all others at least 1 hour (3600 + 10·k seconds). -/
def scenario8 : List NodeEvictionCandidate :=
  [ { baseCand with id := 0, m_connected := 3660 },
    { baseCand with id := 1, m_connected := 3650 },
    { baseCand with id := 2, m_connected := 3640 },
    { baseCand with id := 3, m_connected := 3630 },
    { baseCand with id := 4, m_connected := 3620 },
    { baseCand with id := 5, m_connected := 3610 },
    { baseCand with id := 6, m_connected := 3600 },
    { baseCand with id := 7, m_connected := 1 } ]

/-- Spec §8 concrete scenario: 4 candidates — one Onion peer with the
shortest `connected_duration` of all, and three clearnet peers with longer
`connected_duration`. -/
def scenario4onion : List NodeEvictionCandidate :=
  [ { baseCand with id := 0, m_connected := 10, m_network := .Onion },
    { baseCand with id := 1, m_connected := 100 },
    { baseCand with id := 2, m_connected := 90 },
    { baseCand with id := 3, m_connected := 80 } ]

/-- An all-privacy input: 4 Onion inbound candidates with distinct ids and
connection durations. -/
def allOnion4 : List NodeEvictionCandidate :=
  [ { baseCand with id := 0, m_connected := 40, m_network := .Onion },
    { baseCand with id := 1, m_connected := 30, m_network := .Onion },
    { baseCand with id := 2, m_connected := 20, m_network := .Onion },
    { baseCand with id := 3, m_connected := 10, m_network := .Onion } ]

/-- An all-clearnet input of 4 candidates (privacy group empty). -/
def clearnet4 : List NodeEvictionCandidate :=
  [ { baseCand with id := 0, m_connected := 40 },
    { baseCand with id := 1, m_connected := 30 },
    { baseCand with id := 2, m_connected := 20 },
    { baseCand with id := 3, m_connected := 10 } ]

/-- An input violating the unique-id precondition. -/
def dupIds2 : List NodeEvictionCandidate :=
  [ { baseCand with id := 5, m_connected := 40 },
    { baseCand with id := 5, m_connected := 30 } ]

/-- An input containing a non-inbound candidate. -/
def nonInbound1 : List NodeEvictionCandidate :=
  [ { baseCand with id := 0, m_conn_type := .FEELER } ]

/-! ## Generic facts about the boolean insertion sort -/

/-- Inserting an element permutes consing it. -/
theorem insertLe_perm {α : Type} (le : α → α → Bool) (a : α) (l : List α) :
    (insertLe le a l).Perm (a :: l) := by
  induction l with
  | nil => exact List.Perm.refl _
  | cons b t ih =>
    simp only [insertLe]
    split
    · exact List.Perm.refl _
    · exact (ih.cons b).trans (List.Perm.swap a b t)

/-- The insertion sort permutes its input. -/
theorem sortLe_perm {α : Type} (le : α → α → Bool) (l : List α) :
    (sortLe le l).Perm l := by
  induction l with
  | nil => exact List.Perm.refl _
  | cons a t ih => exact (insertLe_perm le a (sortLe le t)).trans (ih.cons a)

/-- Insertion preserves sortedness, given a transitive total relation. -/
theorem insertLe_pairwise {α : Type} {le : α → α → Bool}
    (htrans : ∀ a b c, le a b = true → le b c = true → le a c = true)
    (htot : ∀ a b, le a b = true ∨ le b a = true) (a : α) :
    ∀ {l : List α}, l.Pairwise (fun x y => le x y = true) →
      (insertLe le a l).Pairwise (fun x y => le x y = true) := by
  intro l h
  induction l with
  | nil => simp [insertLe]
  | cons b t ih =>
    rcases List.pairwise_cons.mp h with ⟨hb, ht⟩
    by_cases hab : le a b = true
    · simp only [insertLe, if_pos hab]
      refine List.pairwise_cons.mpr ⟨?_, h⟩
      intro y hy
      rcases List.mem_cons.mp hy with hy | hy
      · exact hy ▸ hab
      · exact htrans a b y hab (hb y hy)
    · simp only [insertLe, if_neg hab]
      refine List.pairwise_cons.mpr ⟨?_, ih ht⟩
      intro y hy
      have hy' : y ∈ a :: t := (insertLe_perm le a t).mem_iff.mp hy
      rcases List.mem_cons.mp hy' with hy' | hy'
      · rw [hy']
        rcases htot a b with h1 | h1
        · exact absurd h1 hab
        · exact h1
      · exact hb y hy'

/-- The insertion sort is sorted, given a transitive total relation. -/
theorem sortLe_pairwise {α : Type} {le : α → α → Bool}
    (htrans : ∀ a b c, le a b = true → le b c = true → le a c = true)
    (htot : ∀ a b, le a b = true ∨ le b a = true) (l : List α) :
    (sortLe le l).Pairwise (fun x y => le x y = true) := by
  induction l with
  | nil => simp [sortLe]
  | cons a t ih => exact insertLe_pairwise htrans htot a ih

/-- Two sorted lists that are permutations of each other are equal, as
long as the order is antisymmetric on the elements of the lists (a local
form sufficient when ids are unique). -/
theorem sorted_perm_eq {α : Type} {le : α → α → Bool} :
    ∀ {l₁ l₂ : List α}, l₁.Perm l₂ →
      l₁.Pairwise (fun x y => le x y = true) →
      l₂.Pairwise (fun x y => le x y = true) →
      (∀ a ∈ l₁, ∀ b ∈ l₁, le a b = true → le b a = true → a = b) →
      l₁ = l₂ := by
  intro l₁
  induction l₁ with
  | nil =>
    intro l₂ hperm _ _ _
    exact (hperm.symm.eq_nil).symm
  | cons a t₁ ih =>
    intro l₂ hperm hs₁ hs₂ hanti
    cases l₂ with
    | nil => exact absurd hperm.eq_nil (by simp)
    | cons b t₂ =>
      rcases List.pairwise_cons.mp hs₁ with ⟨ha₁, ht₁⟩
      rcases List.pairwise_cons.mp hs₂ with ⟨hb₂, ht₂⟩
      have hab : a = b := by
        by_cases h : a = b
        · exact h
        · have ha2 : a ∈ t₂ := by
            rcases List.mem_cons.mp (hperm.mem_iff.mp (List.mem_cons_self a t₁))
              with h1 | h1
            · exact absurd h1 h
            · exact h1
          have hb1 : b ∈ t₁ := by
            rcases List.mem_cons.mp (hperm.mem_iff.mpr (List.mem_cons_self b t₂))
              with h1 | h1
            · exact absurd h1.symm h
            · exact h1
          exact hanti a (List.mem_cons_self a t₁) b (List.mem_cons_of_mem a hb1)
            (ha₁ b hb1) (hb₂ a ha2)
      subst hab
      have htail : t₁.Perm t₂ := hperm.cons_inv
      have : t₁ = t₂ := by
        refine ih htail ht₁ ht₂ ?_
        intro x hx y hy
        exact hanti x (List.mem_cons_of_mem a hx) y (List.mem_cons_of_mem a hy)
      rw [this]

/-- Sorting is invariant under permutation of the input, as long as the
order is antisymmetric on the elements. -/
theorem sortLe_eq_of_perm {α : Type} {le : α → α → Bool}
    (htrans : ∀ a b c, le a b = true → le b c = true → le a c = true)
    (htot : ∀ a b, le a b = true ∨ le b a = true)
    {l₁ l₂ : List α} (hperm : l₁.Perm l₂)
    (hanti : ∀ a ∈ l₁, ∀ b ∈ l₁, le a b = true → le b a = true → a = b) :
    sortLe le l₁ = sortLe le l₂ := by
  refine sorted_perm_eq
    ((sortLe_perm le l₁).trans (hperm.trans (sortLe_perm le l₂).symm))
    (sortLe_pairwise htrans htot l₁) (sortLe_pairwise htrans htot l₂) ?_
  intro a ha b hb
  exact hanti a ((sortLe_perm le l₁).mem_iff.mp ha)
    b ((sortLe_perm le l₁).mem_iff.mp hb)

/-! ## The concrete orders -/

/-- The integer order is transitive. -/
theorem intLe_trans : ∀ a b c : Int,
    intLe a b = true → intLe b c = true → intLe a c = true := by
  intro a b c
  simp only [intLe, decide_eq_true_eq]
  omega

/-- The integer order is total. -/
theorem intLe_total : ∀ a b : Int, intLe a b = true ∨ intLe b a = true := by
  intro a b
  simp only [intLe, decide_eq_true_eq]
  omega

/-- The integer order is antisymmetric. -/
theorem intLe_antisymm : ∀ a b : Int,
    intLe a b = true → intLe b a = true → a = b := by
  intro a b
  simp only [intLe, decide_eq_true_eq]
  omega

/-- The protection order is transitive. -/
theorem protLe_trans : ∀ a b c : NodeEvictionCandidate,
    protLe a b = true → protLe b c = true → protLe a c = true := by
  intro a b c
  simp only [protLe, decide_eq_true_eq]
  omega

/-- The protection order is total. -/
theorem protLe_total : ∀ a b : NodeEvictionCandidate,
    protLe a b = true ∨ protLe b a = true := by
  intro a b
  simp only [protLe, decide_eq_true_eq]
  omega

/-- Mutually related candidates in the protection order share an id. -/
theorem protLe_antisymm_id : ∀ a b : NodeEvictionCandidate,
    protLe a b = true → protLe b a = true → a.id = b.id := by
  intro a b
  simp only [protLe, decide_eq_true_eq]
  omega

/-- The final selection order is transitive. -/
theorem finalLe_trans : ∀ a b c : NodeEvictionCandidate,
    finalLe a b = true → finalLe b c = true → finalLe a c = true := by
  intro a b c
  simp only [finalLe, decide_eq_true_eq]
  omega

/-- The final selection order is total. -/
theorem finalLe_total : ∀ a b : NodeEvictionCandidate,
    finalLe a b = true ∨ finalLe b a = true := by
  intro a b
  simp only [finalLe, decide_eq_true_eq]
  omega

/-- The final selection order is reflexive. -/
theorem finalLe_refl : ∀ a : NodeEvictionCandidate, finalLe a a = true := by
  intro a
  simp [finalLe]

/-- Mutually related candidates in the final order share an id. -/
theorem finalLe_antisymm_id : ∀ a b : NodeEvictionCandidate,
    finalLe a b = true → finalLe b a = true → a.id = b.id := by
  intro a b
  simp only [finalLe, decide_eq_true_eq]
  omega

/-! ## Unique ids -/

/-- With unique ids, equal ids identify equal candidates in the list. -/
theorem idsOf_inj {l : List NodeEvictionCandidate}
    (h : (idsOf l).Nodup) :
    ∀ a ∈ l, ∀ b ∈ l, a.id = b.id → a = b := by
  intro a ha b hb hid
  exact List.inj_on_of_nodup_map h ha hb hid

/-- Unique ids are inherited by sublists. -/
theorem idsOf_nodup_sublist {l₁ l₂ : List NodeEvictionCandidate}
    (h : l₁.Sublist l₂) (hn : (idsOf l₂).Nodup) : (idsOf l₁).Nodup :=
  List.Nodup.sublist (h.map (fun c => c.id)) hn

/-- Unique ids are preserved by permutation. -/
theorem idsOf_nodup_perm {l₁ l₂ : List NodeEvictionCandidate}
    (h : l₁.Perm l₂) (hn : (idsOf l₁).Nodup) : (idsOf l₂).Nodup :=
  (h.map (fun c => c.id)).nodup hn

/-- Unique ids imply unique candidates. -/
theorem nodup_of_idsOf_nodup {l : List NodeEvictionCandidate}
    (h : (idsOf l).Nodup) : l.Nodup :=
  List.Nodup.of_map (fun c => c.id) h

/-- Sorting by the protection order is invariant under permutations of a
collection with unique ids. -/
theorem sortProt_eq_of_perm {l₁ l₂ : List NodeEvictionCandidate}
    (hperm : l₁.Perm l₂) (hn : (idsOf l₁).Nodup) :
    sortLe protLe l₁ = sortLe protLe l₂ := by
  refine sortLe_eq_of_perm protLe_trans protLe_total hperm ?_
  intro a ha b hb h1 h2
  exact idsOf_inj hn a ha b hb (protLe_antisymm_id a b h1 h2)

/-- Sorting by the final selection order is invariant under permutations
of a collection with unique ids. -/
theorem sortFinal_eq_of_perm {l₁ l₂ : List NodeEvictionCandidate}
    (hperm : l₁.Perm l₂) (hn : (idsOf l₁).Nodup) :
    sortLe finalLe l₁ = sortLe finalLe l₂ := by
  refine sortLe_eq_of_perm finalLe_trans finalLe_total hperm ?_
  intro a ha b hb h1 h2
  exact idsOf_inj hn a ha b hb (finalLe_antisymm_id a b h1 h2)

/-! ## Median and maximum -/

/-- Integer sorting is invariant under permutation. -/
theorem sortInt_eq_of_perm {xs ys : List Int} (h : xs.Perm ys) :
    sortLe intLe xs = sortLe intLe ys := by
  refine sortLe_eq_of_perm intLe_trans intLe_total h ?_
  intro a _ b _ h1 h2
  exact intLe_antisymm a b h1 h2

/-- The median is invariant under permutation. -/
theorem medianOf_perm {xs ys : List Int} (h : xs.Perm ys) :
    medianOf xs = medianOf ys := by
  unfold medianOf
  rw [sortInt_eq_of_perm h, h.length_eq]

/-- The maximum is invariant under permutation. -/
theorem maxOf_perm {xs ys : List Int} (h : xs.Perm ys) :
    maxOf xs = maxOf ys := by
  unfold maxOf
  rw [sortInt_eq_of_perm h, h.length_eq]

/-- The median of a non-empty list is one of its values. -/
theorem medianOf_mem {xs : List Int} (h : xs ≠ []) : medianOf xs ∈ xs := by
  have hlen : 0 < xs.length := List.length_pos.mpr h
  have hslen : (sortLe intLe xs).length = xs.length :=
    (sortLe_perm intLe xs).length_eq
  have hidx : (xs.length - 1) / 2 < (sortLe intLe xs).length := by omega
  rw [medianOf, List.getD_eq_getElem _ _ hidx]
  exact (sortLe_perm intLe xs).mem_iff.mp (List.getElem_mem hidx)

/-! ## Facts about Protection-by-Ratio -/

/-- Quota-protected candidates come from the privacy group. -/
theorem quotaProtected_mem_filter {l : List NodeEvictionCandidate} {c}
    (h : c ∈ quotaProtected l) : c ∈ l.filter isPrivacy :=
  (sortLe_perm protLe (l.filter isPrivacy)).mem_iff.mp
    ((List.take_sublist _ _).subset h)

/-- Quota-protected candidates are input candidates. -/
theorem quotaProtected_subset {l : List NodeEvictionCandidate} {c}
    (h : c ∈ quotaProtected l) : c ∈ l :=
  (List.mem_filter.mp (quotaProtected_mem_filter h)).1

/-- Quota-protected candidates are privacy-network candidates. -/
theorem quotaProtected_privacy {l : List NodeEvictionCandidate} {c}
    (h : c ∈ quotaProtected l) : isPrivacy c = true :=
  (List.mem_filter.mp (quotaProtected_mem_filter h)).2

/-- Generally protected candidates are input candidates that the quota
step did not already protect. -/
theorem generalProtected_mem {l : List NodeEvictionCandidate} {c}
    (h : c ∈ generalProtected l) : c ∈ l ∧ c ∉ quotaProtected l := by
  have hmem : c ∈ l.filter (fun c => decide (c ∉ quotaProtected l)) :=
    (sortLe_perm protLe _).mem_iff.mp ((List.take_sublist _ _).subset h)
  rcases List.mem_filter.mp hmem with ⟨h1, h2⟩
  exact ⟨h1, by simpa using h2⟩

/-- Protected candidates are input candidates. -/
theorem protectedOf_subset {l : List NodeEvictionCandidate} {c}
    (h : c ∈ protectedOf l) : c ∈ l := by
  rcases List.mem_append.mp h with h | h
  · exact quotaProtected_subset h
  · exact (generalProtected_mem h).1

/-- Sorting preserves the no-duplicates property. -/
theorem sortLe_nodup {α : Type} (le : α → α → Bool) {l : List α}
    (h : l.Nodup) : (sortLe le l).Nodup :=
  (sortLe_perm le l).symm.nodup h

/-- The quota-protected list has no duplicates. -/
theorem quotaProtected_nodup {l : List NodeEvictionCandidate}
    (h : l.Nodup) : (quotaProtected l).Nodup :=
  List.Nodup.sublist (List.take_sublist _ _)
    (sortLe_nodup protLe (List.Nodup.filter isPrivacy h))

/-- The generally protected list has no duplicates. -/
theorem generalProtected_nodup {l : List NodeEvictionCandidate}
    (h : l.Nodup) : (generalProtected l).Nodup :=
  List.Nodup.sublist (List.take_sublist _ _)
    (sortLe_nodup protLe (List.Nodup.filter _ h))

/-- The protected list has no duplicates. -/
theorem protectedOf_nodup {l : List NodeEvictionCandidate}
    (h : l.Nodup) : (protectedOf l).Nodup := by
  refine List.nodup_append.mpr
    ⟨quotaProtected_nodup h, generalProtected_nodup h, ?_⟩
  intro c hc hcg
  exact (generalProtected_mem hcg).2 hc

/-- Residual candidates are exactly the unprotected input candidates. -/
theorem mem_evictionResidual_iff {l : List NodeEvictionCandidate} {c} :
    c ∈ ProtectEvictionCandidatesByRatio l ↔ c ∈ l ∧ c ∉ protectedOf l := by
  unfold ProtectEvictionCandidatesByRatio
  simp [List.mem_filter]

/-! ## Facts about the narrowing stages -/

/-- A conditional narrowing is a sublist of its input. -/
theorem narrowIf_sublist (p : NodeEvictionCandidate → Bool)
    (l : List NodeEvictionCandidate) : (narrowIf p l).Sublist l := by
  unfold narrowIf
  split
  · exact List.filter_sublist l
  · exact List.Sublist.refl l

/-- A conditional narrowing keeps a non-empty working set non-empty. -/
theorem narrowIf_ne_nil (p : NodeEvictionCandidate → Bool)
    {l : List NodeEvictionCandidate} (h : l ≠ []) : narrowIf p l ≠ [] := by
  unfold narrowIf
  split
  · next hany =>
      rcases List.any_eq_true.mp hany with ⟨x, hx, hp⟩
      exact List.ne_nil_of_mem (List.mem_filter.mpr ⟨hx, hp⟩)
  · exact h

/-- `List.any` only depends on the multiset of elements. -/
theorem any_eq_of_perm {l₁ l₂ : List NodeEvictionCandidate}
    (h : l₁.Perm l₂) (p : NodeEvictionCandidate → Bool) :
    l₁.any p = l₂.any p := by
  rw [Bool.eq_iff_iff]
  simp only [List.any_eq_true]
  constructor
  · rintro ⟨x, hx, hp⟩
    exact ⟨x, h.mem_iff.mp hx, hp⟩
  · rintro ⟨x, hx, hp⟩
    exact ⟨x, h.mem_iff.mpr hx, hp⟩

/-- A conditional narrowing commutes with permutation of the input. -/
theorem narrowIf_perm (p : NodeEvictionCandidate → Bool)
    {l₁ l₂ : List NodeEvictionCandidate} (h : l₁.Perm l₂) :
    (narrowIf p l₁).Perm (narrowIf p l₂) := by
  unfold narrowIf
  rw [any_eq_of_perm h p]
  split
  · exact h.filter p
  · exact h

/-- A recent-traffic narrowing is a sublist of its input. -/
theorem narrowLeastRecent_sublist (key : NodeEvictionCandidate → Int)
    (l : List NodeEvictionCandidate) :
    (narrowLeastRecent key l).Sublist l := by
  unfold narrowLeastRecent
  split
  · exact List.filter_sublist l
  · exact List.Sublist.refl l

/-- Some candidate attains the median of a key over a non-empty working
set. -/
theorem exists_key_eq_median (key : NodeEvictionCandidate → Int)
    {l : List NodeEvictionCandidate} (h : l ≠ []) :
    ∃ c ∈ l, key c = medianOf (l.map key) := by
  have hne : l.map key ≠ [] := by
    simpa using h
  rcases List.mem_map.mp (medianOf_mem hne) with ⟨c, hc, hkey⟩
  exact ⟨c, hc, hkey⟩

/-- A recent-traffic narrowing keeps a non-empty working set
non-empty. -/
theorem narrowLeastRecent_ne_nil (key : NodeEvictionCandidate → Int)
    {l : List NodeEvictionCandidate} (h : l ≠ []) :
    narrowLeastRecent key l ≠ [] := by
  unfold narrowLeastRecent
  split
  · rcases exists_key_eq_median key h with ⟨c, hc, hkey⟩
    refine List.ne_nil_of_mem (List.mem_filter.mpr ⟨hc, ?_⟩)
    simp [hkey]
  · exact h

/-- A recent-traffic narrowing commutes with permutation of the input. -/
theorem narrowLeastRecent_perm (key : NodeEvictionCandidate → Int)
    {l₁ l₂ : List NodeEvictionCandidate} (h : l₁.Perm l₂) :
    (narrowLeastRecent key l₁).Perm (narrowLeastRecent key l₂) := by
  unfold narrowLeastRecent
  rw [maxOf_perm (h.map key), medianOf_perm (h.map key),
    any_eq_of_perm h (fun c => decide (key c < maxOf (l₂.map key)))]
  split
  · exact h.filter _
  · exact h

/-- The latency stage is a sublist of its input. -/
theorem stagePing_sublist (l : List NodeEvictionCandidate) :
    (stagePing l).Sublist l :=
  List.filter_sublist l

/-- The latency stage keeps a non-empty working set non-empty. -/
theorem stagePing_ne_nil {l : List NodeEvictionCandidate} (h : l ≠ []) :
    stagePing l ≠ [] := by
  rcases exists_key_eq_median (fun c => c.m_min_ping_time) h with ⟨c, hc, hkey⟩
  refine List.ne_nil_of_mem (List.mem_filter.mpr ⟨hc, ?_⟩)
  simp only [decide_eq_true_eq]
  omega

/-- The latency stage commutes with permutation of the input. -/
theorem stagePing_perm {l₁ l₂ : List NodeEvictionCandidate}
    (h : l₁.Perm l₂) : (stagePing l₁).Perm (stagePing l₂) := by
  unfold stagePing
  rw [medianOf_perm (h.map (fun c => c.m_min_ping_time))]
  exact h.filter _

/-- The full narrowing pipeline is a sublist of its input. -/
theorem workingSet_sublist (l : List NodeEvictionCandidate) :
    (workingSet l).Sublist l := by
  unfold workingSet stageMisbehavior stageServices stageBlock stageTx
  exact ((((stagePing_sublist _).trans
    (narrowLeastRecent_sublist _ _)).trans
    (narrowLeastRecent_sublist _ _)).trans
    (narrowIf_sublist _ _)).trans (narrowIf_sublist _ _)

/-- The full narrowing pipeline keeps a non-empty input non-empty. -/
theorem workingSet_ne_nil {l : List NodeEvictionCandidate} (h : l ≠ []) :
    workingSet l ≠ [] := by
  unfold workingSet stageMisbehavior stageServices stageBlock stageTx
  exact stagePing_ne_nil (narrowLeastRecent_ne_nil _
    (narrowLeastRecent_ne_nil _ (narrowIf_ne_nil _ (narrowIf_ne_nil _ h))))

/-- The full narrowing pipeline commutes with permutation of the
input. -/
theorem workingSet_perm {l₁ l₂ : List NodeEvictionCandidate}
    (h : l₁.Perm l₂) : (workingSet l₁).Perm (workingSet l₂) := by
  unfold workingSet stageMisbehavior stageServices stageBlock stageTx
  exact stagePing_perm (narrowLeastRecent_perm _
    (narrowLeastRecent_perm _ (narrowIf_perm _ (narrowIf_perm _ h))))

/-- The survivor of the narrowing pipeline: on a non-empty input the
selection returns the id of a member of the final working set that is
least in the final selection order. -/
theorem select_spec (l : List NodeEvictionCandidate) (h : l ≠ []) :
    ∃ m, m ∈ workingSet l ∧ (∀ d ∈ workingSet l, finalLe m d = true) ∧
      SelectNodeToEvict l = some m.id := by
  have hw : workingSet l ≠ [] := workingSet_ne_nil h
  have hperm := sortLe_perm finalLe (workingSet l)
  have hs : sortLe finalLe (workingSet l) ≠ [] := by
    intro heq
    rw [heq] at hperm
    exact hw hperm.symm.eq_nil
  obtain ⟨m, rest, hcons⟩ := List.exists_cons_of_ne_nil hs
  have hm : m ∈ workingSet l := by
    refine hperm.mem_iff.mp ?_
    rw [hcons]
    exact List.mem_cons_self m rest
  have hpw := sortLe_pairwise finalLe_trans finalLe_total (workingSet l)
  rw [hcons] at hpw
  rcases List.pairwise_cons.mp hpw with ⟨hrest, _⟩
  refine ⟨m, hm, ?_, ?_⟩
  · intro d hd
    have hd' : d ∈ m :: rest := by
      rw [← hcons]
      exact hperm.mem_iff.mpr hd
    rcases List.mem_cons.mp hd' with h1 | h1
    · rw [h1]
      exact finalLe_refl m
    · exact hrest d h1
  · unfold SelectNodeToEvict
    rw [hcons]
    rfl

/-- The quota step is invariant under permutations with unique ids. -/
theorem quotaProtected_eq_of_perm {l₁ l₂ : List NodeEvictionCandidate}
    (h : l₁.Perm l₂) (hn : (idsOf l₁).Nodup) :
    quotaProtected l₁ = quotaProtected l₂ := by
  unfold quotaProtected
  have hnf : (idsOf (l₁.filter isPrivacy)).Nodup :=
    idsOf_nodup_sublist (List.filter_sublist l₁) hn
  rw [sortProt_eq_of_perm (h.filter isPrivacy) hnf, h.length_eq]

/-- The protected set is invariant under permutations with unique ids. -/
theorem protectedOf_eq_of_perm {l₁ l₂ : List NodeEvictionCandidate}
    (h : l₁.Perm l₂) (hn : (idsOf l₁).Nodup) :
    protectedOf l₁ = protectedOf l₂ := by
  have hq := quotaProtected_eq_of_perm h hn
  unfold protectedOf generalProtected
  rw [hq]
  have hnp : (idsOf (l₁.filter
      (fun c => decide (c ∉ quotaProtected l₂)))).Nodup :=
    idsOf_nodup_sublist (List.filter_sublist l₁) hn
  rw [sortProt_eq_of_perm (h.filter _) hnp, h.length_eq]

/-- The residual set maps permutations to permutations when ids are
unique. -/
theorem residual_perm_of_perm {l₁ l₂ : List NodeEvictionCandidate}
    (h : l₁.Perm l₂) (hn : (idsOf l₁).Nodup) :
    (ProtectEvictionCandidatesByRatio l₁).Perm
      (ProtectEvictionCandidatesByRatio l₂) := by
  unfold ProtectEvictionCandidatesByRatio
  rw [protectedOf_eq_of_perm h hn]
  exact h.filter _

/-- The selection is invariant under permutations with unique ids. -/
theorem select_eq_of_perm {l₁ l₂ : List NodeEvictionCandidate}
    (h : l₁.Perm l₂) (hn : (idsOf l₁).Nodup) :
    SelectNodeToEvict l₁ = SelectNodeToEvict l₂ := by
  unfold SelectNodeToEvict
  rw [sortFinal_eq_of_perm (workingSet_perm h)
    (idsOf_nodup_sublist (workingSet_sublist l₁) hn)]

/-! ## Claim theorems -/

/-- C1: on an empty residual collection `SelectNodeToEvict` returns no
decision, and on a non-empty one it returns exactly one id, which is the
id of a candidate present in the input collection. -/
theorem ev_select_total (l : List NodeEvictionCandidate) :
    (l = [] → SelectNodeToEvict l = none) ∧
    (l ≠ [] → ∃ c, c ∈ l ∧ SelectNodeToEvict l = some c.id) := by
  constructor
  · intro h
    subst h
    rfl
  · intro h
    rcases select_spec l h with ⟨m, hm, _, hsel⟩
    exact ⟨m, (workingSet_sublist l).subset hm, hsel⟩

/-- C1 witness: a singleton input yields the decision for its only
candidate. -/
theorem ev_select_total_witness :
    ([baseCand] : List NodeEvictionCandidate) ≠ [] ∧
    ∃ c, c ∈ [baseCand] ∧ SelectNodeToEvict [baseCand] = some c.id :=
  ⟨by decide, (ev_select_total [baseCand]).2 (by decide)⟩

/-- C2: on a collection with unique ids, Protection-by-Ratio exactly
partitions the input — the protected and residual sets together permute
the input, their sizes add up to the input size, no candidate lies in
both, ids remain unique across both sets, and every surviving record is
field-for-field one of the input records. -/
theorem ev_protect_partition (l : List NodeEvictionCandidate)
    (hn : (idsOf l).Nodup) :
    (protectedOf l ++ ProtectEvictionCandidatesByRatio l).Perm l ∧
    (protectedOf l).length + (ProtectEvictionCandidatesByRatio l).length =
      l.length ∧
    (∀ c ∈ protectedOf l, c ∉ ProtectEvictionCandidatesByRatio l) ∧
    (idsOf (protectedOf l ++ ProtectEvictionCandidatesByRatio l)).Nodup ∧
    (∀ c, c ∈ protectedOf l ++ ProtectEvictionCandidatesByRatio l →
      c ∈ l) := by
  have hl : l.Nodup := nodup_of_idsOf_nodup hn
  have hdisj : ∀ c ∈ protectedOf l, c ∉ ProtectEvictionCandidatesByRatio l := by
    intro c hc hcr
    exact (mem_evictionResidual_iff.mp hcr).2 hc
  have hnodup : (protectedOf l ++ ProtectEvictionCandidatesByRatio l).Nodup :=
    List.nodup_append.mpr
      ⟨protectedOf_nodup hl, List.Nodup.filter _ hl, hdisj⟩
  have hmem : ∀ c, c ∈ protectedOf l ++ ProtectEvictionCandidatesByRatio l ↔
      c ∈ l := by
    intro c
    constructor
    · intro hc
      rcases List.mem_append.mp hc with hc | hc
      · exact protectedOf_subset hc
      · exact (mem_evictionResidual_iff.mp hc).1
    · intro hc
      by_cases hp : c ∈ protectedOf l
      · exact List.mem_append.mpr (Or.inl hp)
      · exact List.mem_append.mpr
          (Or.inr (mem_evictionResidual_iff.mpr ⟨hc, hp⟩))
  have hperm : (protectedOf l ++ ProtectEvictionCandidatesByRatio l).Perm l :=
    (List.perm_ext_iff_of_nodup hnodup hl).mpr hmem
  refine ⟨hperm, ?_, hdisj, idsOf_nodup_perm hperm.symm hn,
    fun c hc => (hmem c).mp hc⟩
  have hlen := hperm.length_eq
  simpa [List.length_append] using hlen

/-- C2 witness: the partition property at a concrete 4-candidate
input. -/
theorem ev_protect_partition_witness :
    (idsOf clearnet4).Nodup ∧
    ((protectedOf clearnet4 ++
        ProtectEvictionCandidatesByRatio clearnet4).Perm clearnet4 ∧
      (protectedOf clearnet4).length +
        (ProtectEvictionCandidatesByRatio clearnet4).length =
          clearnet4.length ∧
      (∀ c ∈ protectedOf clearnet4,
        c ∉ ProtectEvictionCandidatesByRatio clearnet4) ∧
      (idsOf (protectedOf clearnet4 ++
        ProtectEvictionCandidatesByRatio clearnet4)).Nodup ∧
      (∀ c, c ∈ protectedOf clearnet4 ++
        ProtectEvictionCandidatesByRatio clearnet4 → c ∈ clearnet4)) :=
  ⟨by decide, ev_protect_partition clearnet4 (by decide)⟩

/-- C3 counterexample: with an all-privacy input of four Onion peers,
Protection-by-Ratio protects two privacy-network candidates, exceeding
the claimed ceiling of one (⌈4/4⌉) privacy-network protected
candidates. -/
theorem ev_privacy_quarter_cex :
    ((protectedOf allOnion4).filter isPrivacy).length = 2 ∧
    (allOnion4.length + 3) / 4 = 1 ∧
    ¬ ((protectedOf allOnion4).filter isPrivacy).length ≤
      (allOnion4.length + 3) / 4 := by
  decide

/-- C3 amended: Protection-by-Ratio protects at most ⌈n/2⌉ candidates in
total; the privacy-reservation step protects at most ⌈n/4⌉ candidates,
all of them privacy-network; and when the privacy group is smaller than
the quota, the reservation protects exactly the whole privacy group (the
quota is a ceiling, not a guarantee).  The total privacy-network
protected count, however, can exceed ⌈n/4⌉, because the general
longevity step draws from the remaining pool including privacy
candidates. -/
theorem ev_protect_ratio_bounds (l : List NodeEvictionCandidate) :
    (protectedOf l).length ≤ (l.length + 1) / 2 ∧
    (quotaProtected l).length ≤ (l.length + 3) / 4 ∧
    (∀ c ∈ quotaProtected l, isPrivacy c = true) ∧
    ((l.filter isPrivacy).length < privacyQuota l.length →
      (quotaProtected l).Perm (l.filter isPrivacy)) := by
  have hq : (quotaProtected l).length ≤ privacyQuota l.length :=
    List.length_take_le _ _
  have hg : (generalProtected l).length ≤
      protectTargetSize l.length - (quotaProtected l).length :=
    List.length_take_le _ _
  refine ⟨?_, ?_, fun c hc => quotaProtected_privacy hc, ?_⟩
  · have hlen : (protectedOf l).length =
        (quotaProtected l).length + (generalProtected l).length :=
      List.length_append _ _
    unfold privacyQuota at hq
    unfold protectTargetSize at hg
    rcases Nat.lt_or_ge l.length 4 with h4 | h4
    · rw [if_pos h4] at hg
      omega
    · rw [if_neg (Nat.not_lt.mpr h4)] at hg
      omega
  · unfold privacyQuota at hq
    omega
  · intro hsmall
    have hlen : (sortLe protLe (l.filter isPrivacy)).length ≤
        privacyQuota l.length := by
      rw [(sortLe_perm protLe _).length_eq]
      omega
    unfold quotaProtected
    rw [List.take_of_length_le hlen]
    exact sortLe_perm protLe _

/-- C3 witness: with an empty privacy group (smaller than the quota), the
reservation protects exactly that whole (empty) group. -/
theorem ev_protect_ratio_bounds_witness :
    (clearnet4.filter isPrivacy).length <
      privacyQuota clearnet4.length ∧
    (quotaProtected clearnet4).Perm (clearnet4.filter isPrivacy) :=
  ⟨by decide, (ev_protect_ratio_bounds clearnet4).2.2.2 (by decide)⟩

/-- C4: both algorithms are deterministic over the multiset of candidate
field values — permuting an input collection with unique ids changes
neither the protected/residual partition nor the selection decision. -/
theorem ev_determinism (l₁ l₂ : List NodeEvictionCandidate)
    (hperm : l₁.Perm l₂) (hn : (idsOf l₁).Nodup) :
    protectedOf l₁ = protectedOf l₂ ∧
    (ProtectEvictionCandidatesByRatio l₁).Perm
      (ProtectEvictionCandidatesByRatio l₂) ∧
    SelectNodeToEvict l₁ = SelectNodeToEvict l₂ :=
  ⟨protectedOf_eq_of_perm hperm hn, residual_perm_of_perm hperm hn,
    select_eq_of_perm hperm hn⟩

/-- C4 witness: swapping a concrete two-candidate collection changes
neither output. -/
theorem ev_determinism_witness :
    ([{ baseCand with id := 0, m_connected := 7 },
      { baseCand with id := 1, m_connected := 3 }] :
        List NodeEvictionCandidate).Perm
      [{ baseCand with id := 1, m_connected := 3 },
       { baseCand with id := 0, m_connected := 7 }] ∧
    (idsOf [{ baseCand with id := 0, m_connected := 7 },
      { baseCand with id := 1, m_connected := 3 }]).Nodup ∧
    (protectedOf [{ baseCand with id := 0, m_connected := 7 },
        { baseCand with id := 1, m_connected := 3 }] =
      protectedOf [{ baseCand with id := 1, m_connected := 3 },
        { baseCand with id := 0, m_connected := 7 }] ∧
    (ProtectEvictionCandidatesByRatio
        [{ baseCand with id := 0, m_connected := 7 },
         { baseCand with id := 1, m_connected := 3 }]).Perm
      (ProtectEvictionCandidatesByRatio
        [{ baseCand with id := 1, m_connected := 3 },
         { baseCand with id := 0, m_connected := 7 }]) ∧
    SelectNodeToEvict [{ baseCand with id := 0, m_connected := 7 },
        { baseCand with id := 1, m_connected := 3 }] =
      SelectNodeToEvict [{ baseCand with id := 1, m_connected := 3 },
        { baseCand with id := 0, m_connected := 7 }]) := by
  have hperm : ([{ baseCand with id := 0, m_connected := 7 },
      { baseCand with id := 1, m_connected := 3 }] :
        List NodeEvictionCandidate).Perm
      [{ baseCand with id := 1, m_connected := 3 },
       { baseCand with id := 0, m_connected := 7 }] :=
    List.Perm.swap { baseCand with id := 1, m_connected := 3 }
      { baseCand with id := 0, m_connected := 7 } []
  exact ⟨hperm, by decide, ev_determinism _ _ hperm (by decide)⟩

/-- C5: whenever some candidate carries the `prefer_evict` hint, the
selected eviction target carries the hint as well — the misbehavior
override restricts the working set to the hinted candidates before any
later stage runs. -/
theorem ev_prefer_evict_precedence (l : List NodeEvictionCandidate)
    (hne : l ≠ []) (hpe : ∃ c ∈ l, c.prefer_evict = true) :
    ∃ c, c ∈ l ∧ c.prefer_evict = true ∧
      SelectNodeToEvict l = some c.id := by
  rcases select_spec l hne with ⟨m, hm, _, hsel⟩
  have hany : l.any (fun c => c.prefer_evict) = true := by
    rcases hpe with ⟨c, hc, hp⟩
    exact List.any_eq_true.mpr ⟨c, hc, hp⟩
  have hsub : (workingSet l).Sublist (stageMisbehavior l) := by
    unfold workingSet stageServices stageBlock stageTx
    exact (((stagePing_sublist _).trans
      (narrowLeastRecent_sublist _ _)).trans
      (narrowLeastRecent_sublist _ _)).trans (narrowIf_sublist _ _)
  have hmis : m ∈ stageMisbehavior l := hsub.subset hm
  rw [stageMisbehavior, narrowIf, if_pos hany] at hmis
  rcases List.mem_filter.mp hmis with ⟨hml, hmp⟩
  exact ⟨m, hml, hmp, hsel⟩

/-- C5 witness: with one hinted candidate among two, the hinted one is
selected. -/
theorem ev_prefer_evict_precedence_witness :
    ([{ baseCand with id := 0, m_connected := 9 },
      { baseCand with id := 1, prefer_evict := true }] :
        List NodeEvictionCandidate) ≠ [] ∧
    (∃ c ∈ [{ baseCand with id := 0, m_connected := 9 },
      { baseCand with id := 1, prefer_evict := true }],
        c.prefer_evict = true) ∧
    ∃ c, c ∈ [{ baseCand with id := 0, m_connected := 9 },
        { baseCand with id := 1, prefer_evict := true }] ∧
      c.prefer_evict = true ∧
      SelectNodeToEvict [{ baseCand with id := 0, m_connected := 9 },
        { baseCand with id := 1, prefer_evict := true }] = some c.id :=
  ⟨by decide, by decide,
    ev_prefer_evict_precedence _ (by decide) (by decide)⟩

/-- C6: on any non-empty input the returned candidate is least in the
final order over the surviving working set — smallest
`connected_duration`, ties broken by smallest id; and in the concrete
8-candidate scenario (uniform data except one 1-second connection) the
1-second candidate is excluded from the protected half and is the one
selected for eviction. -/
theorem ev_final_tiebreak :
    (∀ l : List NodeEvictionCandidate, l ≠ [] →
      ∃ m, m ∈ workingSet l ∧ (∀ d ∈ workingSet l, finalLe m d = true) ∧
        SelectNodeToEvict l = some m.id) ∧
    ({ baseCand with id := 7, m_connected := 1 } ∉ protectedOf scenario8 ∧
      SelectNodeToEvict (ProtectEvictionCandidatesByRatio scenario8) =
        some 7) :=
  ⟨fun l h => select_spec l h, by decide, by decide⟩

/-- C6 witness: the final-stage minimality applied at a concrete
singleton input. -/
theorem ev_final_tiebreak_witness :
    ([baseCand] : List NodeEvictionCandidate) ≠ [] ∧
    ∃ m, m ∈ workingSet [baseCand] ∧
      (∀ d ∈ workingSet [baseCand], finalLe m d = true) ∧
      SelectNodeToEvict [baseCand] = some m.id :=
  ⟨by decide, ev_final_tiebreak.1 [baseCand] (by decide)⟩

/-- C7: an input with a duplicate id or a non-inbound candidate is
reported to the caller as an input-contract error by both checked
algorithms — validation precedes any partitioning, so no partition or
decision is produced. -/
theorem ev_input_validation (l : List NodeEvictionCandidate)
    (h : hasDuplicateIds l = true ∨ hasNonInbound l = true) :
    ∃ e, validateEvictionInput l = Except.error e ∧
      protectByRatioChecked l = Except.error e ∧
      selectNodeToEvictChecked l = Except.error e := by
  unfold protectByRatioChecked selectNodeToEvictChecked validateEvictionInput
  cases hdup : hasDuplicateIds l with
  | true => exact ⟨EvictionInputError.duplicateId, by simp⟩
  | false =>
    have hni : hasNonInbound l = true := by
      rcases h with h | h
      · rw [hdup] at h
        exact absurd h (by simp)
      · exact h
    exact ⟨EvictionInputError.nonInboundCandidate, by simp [hni]⟩

/-- C7 witness: a concrete duplicate-id input is rejected by both
algorithms. -/
theorem ev_input_validation_witness :
    (hasDuplicateIds dupIds2 = true ∨ hasNonInbound dupIds2 = true) ∧
    ∃ e, validateEvictionInput dupIds2 = Except.error e ∧
      protectByRatioChecked dupIds2 = Except.error e ∧
      selectNodeToEvictChecked dupIds2 = Except.error e :=
  ⟨Or.inl (by decide), ev_input_validation dupIds2 (Or.inl (by decide))⟩

/-- C8: degenerate inputs are not errors — the empty collection is a
no-op for protection and yields no decision for selection, and any
collection of fewer than 4 candidates has its ratio computations floored
to zero protected candidates while a decision can still be produced. -/
theorem ev_degenerate_inputs :
    (ProtectEvictionCandidatesByRatio ([] : List NodeEvictionCandidate) =
        [] ∧
      protectedOf ([] : List NodeEvictionCandidate) = [] ∧
      SelectNodeToEvict ([] : List NodeEvictionCandidate) = none) ∧
    ∀ l : List NodeEvictionCandidate, l.length < 4 →
      protectedOf l = [] ∧ ProtectEvictionCandidatesByRatio l = l ∧
      (l ≠ [] → ∃ c, c ∈ l ∧ SelectNodeToEvict l = some c.id) := by
  constructor
  · exact ⟨rfl, rfl, rfl⟩
  · intro l h4
    have hq : privacyQuota l.length = 0 := by
      unfold privacyQuota
      omega
    have hqp : quotaProtected l = [] := by
      unfold quotaProtected
      rw [hq]
      exact List.take_zero _
    have ht : protectTargetSize l.length = 0 := by
      unfold protectTargetSize
      rw [if_pos h4]
    have hprot : protectedOf l = [] := by
      unfold protectedOf generalProtected
      rw [hqp, ht]
      simp
    refine ⟨hprot, ?_, ?_⟩
    · unfold ProtectEvictionCandidatesByRatio
      rw [hprot]
      simp
    · intro hne
      rcases select_spec l hne with ⟨m, hm, _, hsel⟩
      exact ⟨m, (workingSet_sublist l).subset hm, hsel⟩

/-- C8 witness: a concrete singleton input floors protection to zero and
still yields a decision. -/
theorem ev_degenerate_inputs_witness :
    ([baseCand] : List NodeEvictionCandidate).length < 4 ∧
    (protectedOf [baseCand] = [] ∧
      ProtectEvictionCandidatesByRatio [baseCand] = [baseCand] ∧
      (([baseCand] : List NodeEvictionCandidate) ≠ [] →
        ∃ c, c ∈ [baseCand] ∧
          SelectNodeToEvict [baseCand] = some c.id)) :=
  ⟨by decide, ev_degenerate_inputs.2 [baseCand] (by decide)⟩

/-- C9: in the concrete 4-candidate scenario with one shortest-lived
Onion peer and three longer-lived clearnet peers, the Onion peer is
protected by the privacy reservation, is absent from the residual set,
and the eviction decision falls on a clearnet peer instead. -/
theorem ev_onion_protected_scenario :
    { baseCand with id := 0, m_connected := 10, m_network := Network.Onion }
        ∈ protectedOf scenario4onion ∧
    { baseCand with id := 0, m_connected := 10, m_network := Network.Onion }
        ∉ ProtectEvictionCandidatesByRatio scenario4onion ∧
    SelectNodeToEvict (ProtectEvictionCandidatesByRatio scenario4onion) =
      some 3 := by
  decide

/-- C10: the connection-type-to-string conversion is total over the six
enumerators and injective (distinct enumerators yield distinct strings),
and no enumerator produces the empty string — the `assert(false)`
fall-through after the `switch` is unreachable for valid enumerators. -/
theorem connectionTypeAsString_injective_total :
    (∀ a b : ConnectionType,
      ConnectionTypeAsString a = ConnectionTypeAsString b → a = b) ∧
    ∀ a : ConnectionType, ConnectionTypeAsString a ≠ "" := by
  decide

/-- C10 witness: the injectivity and non-emptiness facts applied at
concrete enumerators. -/
theorem connectionTypeAsString_injective_total_witness :
    ConnectionType.INBOUND = ConnectionType.INBOUND ∧
    ConnectionTypeAsString ConnectionType.FEELER ≠ "" :=
  ⟨connectionTypeAsString_injective_total.1 ConnectionType.INBOUND
      ConnectionType.INBOUND rfl,
    connectionTypeAsString_injective_total.2 ConnectionType.FEELER⟩
